import Mathlib

/-!
Verification of `download_and_create_reference_datasets/v02/mito/create_ht__mito_reference_data.py`
(seqr-loading-pipelines).

The script is a batch ETL pipeline: a static registry (`CONFIG`) maps dataset
names to descriptors (source path, input format, per-field derivation
expressions, retained fields); `load_hts` reads each requested dataset,
applies the derivations, wraps the retained fields into a nested struct named
after the dataset, filters to the mitochondrial contig, keys by
`(locus, alleles)` and keeps only the nested field; `join_hts` outer-joins the
per-dataset tables by a left fold and replaces the table globals with run
metadata; `run` validates the requested names, joins, and writes the result.

The embedding below models rows as association lists from field names to
values, tables as lists of rows, the dataframe engine effects (reads, the
temporary file of the JSON branch, writes to an output location) as explicit
state, and Python or Hail runtime failures as `Except` errors.  Hail
expression evaluation itself is external to the repository; where its
behaviour is needed it is modelled from the spec and marked as such.
-/

/-- Scalar values appearing in table fields: strings, integers, booleans,
string arrays (alleles, regex capture groups), loci (contig and position) and
string-to-string dictionaries (the `datasets` run-metadata global). -/
inductive Scalar where
  | str (s : String)
  | int (n : Int)
  | bool (b : Bool)
  | strArr (a : List String)
  | locus (contig : String) (position : Int)
  | strDict (entries : List (String × String))
deriving DecidableEq, Repr

/-- A field value is a scalar or a nested struct of named values (for example
the per-dataset nested field built at line 108, or the `info` struct of a VCF
row). -/
inductive Value where
  | sc (s : Scalar)
  | struct (fields : List (String × Value))

/-- A row is an association list from field names to values; the first entry
for a name is the field (later duplicates are inert, mirroring the unique
column names of a table schema). -/
abbrev Row := List (String × Value)

/-- Table keys after `key_by('locus', 'alleles')`: the locus value and the
alleles value.  The keys produced by this pipeline are always scalars. -/
abbrev Key := Scalar × Scalar

/-- Runtime failures of the pipeline: Python exceptions and Hail evaluation
errors are collapsed into one error type, since the script installs no
handler anywhere and any of them aborts the run. -/
inductive Err where
  | unknownDataset
  | unknownInputType
  | missingField (f : String)
  | typeErr
  | noMatch
  | parseInt32Failure (s : String)
  | indexOutOfBounds
  | badKeyType
  | tupleNotContextManager
  | reduceOnEmpty
  | outputExists
deriving DecidableEq, Repr

/-- First entry of an association list with the given key, as a whole pair. -/
def afindRow {κ α : Type} [DecidableEq κ] : List (κ × α) → κ → Option (κ × α)
  | [], _ => none
  | r :: rest, k => if r.1 = k then some r else afindRow rest k

/-- Association-list lookup: value of the first entry with the given key. -/
def alookup {κ α : Type} [DecidableEq κ] (rows : List (κ × α)) (k : κ) : Option α :=
  (afindRow rows k).map Prod.snd

/-- Association-list update: replace the first entry with the given key in
place, or append a new entry at the end (the dictionary update discipline of
`annotate` and of writing to an output location). -/
def aset {κ α : Type} [DecidableEq κ] : List (κ × α) → κ → α → List (κ × α)
  | [], k, v => [(k, v)]
  | r :: rest, k, v => if r.1 = k then (k, v) :: rest else r :: aset rest k v

/-- Sequential effectful map over a list, stopping at the first error: the
evaluation order of a Python `for` loop or of a per-row Hail expression. -/
def emapM {α β : Type} (f : α → Except Err β) : List α → Except Err (List β)
  | [] => .ok []
  | x :: xs =>
    match f x with
    | .error e => .error e
    | .ok y =>
      match emapM f xs with
      | .error e => .error e
      | .ok ys => .ok (y :: ys)

/-! ### Hail expression primitives used by the `CONFIG` derivations

Hail expression evaluation is performed by the external engine (out of scope
for the repository).  `Modelled from the spec:` the error taxonomy of spec
section 7 treats a derivation expression that fails to match or compute on a
row (for example a pattern extraction finding no match, or an unparseable
integer) as a fatal evaluation error, so these primitives return `Except`. -/

/-- Field access `ht[f]` / `ht.f`: the first entry named `f`; a missing field
is an evaluation error. -/
def getFieldE (r : Row) (f : String) : Except Err Value :=
  match alookup r f with
  | some v => .ok v
  | none => .error (.missingField f)

/-- Coerce a value to a string, as required by the string operations
(`first_match_in`, `split`, `parse_int32`) applied to it. -/
def asString (v : Value) : Except Err String :=
  match v with
  | .sc (.str s) => .ok s
  | _ => .error .typeErr

/-- Subfield access `v.f` on a struct value (used for `ht.info.X`). -/
def getSubfield (v : Value) (f : String) : Except Err Value :=
  match v with
  | .struct fields =>
    match alookup fields f with
    | some w => .ok w
    | none => .error (.missingField f)
  | _ => .error .typeErr

/-- Modelled from the spec: `hl.parse_int32` parses a decimal string as a
32-bit integer and fails on any string that is not one. -/
def parse_int32 (s : String) : Except Err Int :=
  match s.toInt? with
  | some n =>
    if -2147483648 ≤ n ∧ n ≤ 2147483647 then .ok n else .error (.parseInt32Failure s)
  | none => .error (.parseInt32Failure s)

/-- Character class `[ATGC]` (equivalently `[AGTC]`) of the allele patterns. -/
def isACGT (c : Char) : Bool :=
  c == 'A' || c == 'C' || c == 'G' || c == 'T'

/-- Match of the pattern `m.([0-9]+)` anchored at the head of the character
list: the letter `m`, one arbitrary character, then the captured maximal
nonempty digit run. -/
def matchMNumAt : List Char → Option String
  | 'm' :: _ :: rest =>
    let ds := rest.takeWhile Char.isDigit
    if ds.isEmpty then none else some (String.mk ds)
  | _ => none

/-- Scan for the first match of `m.([0-9]+)`, as `first_match_in` does,
returning the single capture group. -/
def firstMatchMNum : List Char → Option String
  | [] => none
  | c :: rest =>
    match matchMNumAt (c :: rest) with
    | some s => some s
    | none => firstMatchMNum rest

/-- Match of `m.[0-9]+([ATGC]+)>([ATGC]+)` anchored at the head: `m`, one
arbitrary character, a nonempty digit run, a captured nonempty base run, the
literal `>`, and a second captured nonempty base run. -/
def matchAllelesAt : List Char → Option (String × String)
  | 'm' :: _ :: rest =>
    let ds := rest.takeWhile Char.isDigit
    if ds.isEmpty then none else
    let r1 := rest.drop ds.length
    let refs := r1.takeWhile isACGT
    if refs.isEmpty then none else
    match r1.drop refs.length with
    | '>' :: r2 =>
      let alts := r2.takeWhile isACGT
      if alts.isEmpty then none else some (String.mk refs, String.mk alts)
    | _ => none
  | _ => none

/-- Scan for the first match of `m.[0-9]+([ATGC]+)>([ATGC]+)`. -/
def firstMatchAlleles : List Char → Option (String × String)
  | [] => none
  | c :: rest =>
    match matchAllelesAt (c :: rest) with
    | some p => some p
    | none => firstMatchAlleles rest

/-- Match of the helix pattern (a two-element JSON-like rendering of the
alleles array, capturing the two base runs) anchored at the head. -/
def matchHelixAt : List Char → Option (String × String)
  | '[' :: '"' :: rest =>
    let a := rest.takeWhile isACGT
    if a.isEmpty then none else
    match rest.drop a.length with
    | '"' :: ',' :: '"' :: r2 =>
      let b := r2.takeWhile isACGT
      if b.isEmpty then none else
      match r2.drop b.length with
      | '"' :: ']' :: _ => some (String.mk a, String.mk b)
      | _ => none
    | _ => none
  | _ => none

/-- Scan for the first match of the helix alleles pattern. -/
def firstMatchHelix : List Char → Option (String × String)
  | [] => none
  | c :: rest =>
    match matchHelixAt (c :: rest) with
    | some p => some p
    | none => firstMatchHelix rest

/-! ### The derivation expressions of `CONFIG` (source lines 24-82) -/

/-- mitomap `locus` (line 34): parse the position out of the `Allele` text
with `first_match_in` and build a `chrM` locus. -/
def mitomapLocus (ht : Row) : Except Err Value := do
  let a ← getFieldE ht "Allele"
  let s ← asString a
  match firstMatchMNum s.data with
  | none => .error .noMatch
  | some g => do
    let n ← parse_int32 g
    pure (Value.sc (.locus "chrM" n))

/-- mitomap `alleles` (line 35): extract the reference and alternate bases
from the `Allele` text. -/
def mitomapAlleles (ht : Row) : Except Err Value := do
  let a ← getFieldE ht "Allele"
  let s ← asString a
  match firstMatchAlleles s.data with
  | none => .error .noMatch
  | some p => pure (Value.sc (.strArr [p.1, p.2]))

/-- mitomap `pathogenic` (line 36): `hl.is_defined` of the
`Associated Diseases` field; a missing value is modelled as an absent entry. -/
def mitomapPathogenic (ht : Row) : Except Err Value :=
  .ok (Value.sc (.bool (alookup ht "Associated Diseases").isSome))

/-- mitimpact `locus` (line 44): parse the `Start` column. -/
def mitimpactLocus (ht : Row) : Except Err Value := do
  let a ← getFieldE ht "Start"
  let s ← asString a
  let n ← parse_int32 s
  pure (Value.sc (.locus "chrM" n))

/-- mitimpact `alleles` (line 45): the two-element array `[Ref, Alt]`. -/
def mitimpactAlleles (ht : Row) : Except Err Value := do
  let r ← getFieldE ht "Ref"
  let rs ← asString r
  let a ← getFieldE ht "Alt"
  let as2 ← asString a
  pure (Value.sc (.strArr [rs, as2]))

/-- hmtvar `locus` (line 53): parse the `nt_start` column. -/
def hmtvarLocus (ht : Row) : Except Err Value := do
  let a ← getFieldE ht "nt_start"
  let s ← asString a
  let n ← parse_int32 s
  pure (Value.sc (.locus "chrM" n))

/-- hmtvar `alleles` (line 54): the two-element array `[ref_rCRS, alt]`. -/
def hmtvarAlleles (ht : Row) : Except Err Value := do
  let r ← getFieldE ht "ref_rCRS"
  let rs ← asString r
  let a ← getFieldE ht "alt"
  let as2 ← asString a
  pure (Value.sc (.strArr [rs, as2]))

/-- helix `locus` (line 62): split the textual `locus` column on `:` and
parse the second element; an out-of-range index is an evaluation error. -/
def helixLocus (ht : Row) : Except Err Value := do
  let a ← getFieldE ht "locus"
  let s ← asString a
  match (s.splitOn ":").get? 1 with
  | none => .error .indexOutOfBounds
  | some p => do
    let n ← parse_int32 p
    pure (Value.sc (.locus "chrM" n))

/-- helix `alleles` (line 63): extract the two base runs from the textual
`alleles` column. -/
def helixAlleles (ht : Row) : Except Err Value := do
  let a ← getFieldE ht "alleles"
  let s ← asString a
  match firstMatchHelix s.data with
  | none => .error .noMatch
  | some p => pure (Value.sc (.strArr [p.1, p.2]))

/-- clinvar `ALLELEID` (line 71): `ht.info.ALLELEID`. -/
def clinvarAlleleId (ht : Row) : Except Err Value := do
  let i ← getFieldE ht "info"
  getSubfield i "ALLELEID"

/-- clinvar `CLNSIG` (line 72): `ht.info.CLNSIG`. -/
def clinvarClnSig (ht : Row) : Except Err Value := do
  let i ← getFieldE ht "info"
  getSubfield i "CLNSIG"

/-- clinvar `CLNREVSTAT` (line 73): `ht.info.CLNREVSTAT`. -/
def clinvarClnRevStat (ht : Row) : Except Err Value := do
  let i ← getFieldE ht "info"
  getSubfield i "CLNREVSTAT"

/-! ### The dataset registry `CONFIG` (source lines 24-82) -/

/-- A dataset descriptor: source path, input format, derivation expressions
(the `annotate` entry, in dictionary order; absent is the empty list) and the
retained fields (the `select` entry). -/
structure DatasetConfig where
  path : String
  input_type : String
  annotations : List (String × (Row → Except Err Value))
  select : List String

def gnomadConfig : DatasetConfig :=
  { path := "gs://gcp-public-data--gnomad/release/3.1/ht/genomes/gnomad.genomes.v3.1.sites.chrM.ht"
    input_type := "ht"
    annotations := []
    select := ["AN", "AC_hom", "AC_het", "AF_hom", "AF_het", "max_hl"] }

def mitomapConfig : DatasetConfig :=
  { path := "gs://seqr-reference-data/GRCh38/MITOMAP/Mitomap Confirmed Mutations Feb. 04 2022.tsv"
    input_type := "tsv"
    annotations := [("locus", mitomapLocus), ("alleles", mitomapAlleles),
                    ("pathogenic", mitomapPathogenic)]
    select := ["pathogenic"] }

def mitimpactConfig : DatasetConfig :=
  { path := "gs://seqr-reference-data/GRCh38/MitImpact/MitImpact_db_3.0.7.txt"
    input_type := "tsv"
    annotations := [("locus", mitimpactLocus), ("alleles", mitimpactAlleles)]
    select := ["APOGEE_score"] }

def hmtvarConfig : DatasetConfig :=
  { path := "gs://seqr-reference-data/GRCh38/HmtVar/HmtVar Jan. 10 2022.json"
    input_type := "json"
    annotations := [("locus", hmtvarLocus), ("alleles", hmtvarAlleles)]
    select := ["disease_score"] }

def helixConfig : DatasetConfig :=
  { path := "gs://seqr-reference-data/GRCh38/Hilex/HelixMTdb_20200327.tsv"
    input_type := "tsv"
    annotations := [("locus", helixLocus), ("alleles", helixAlleles)]
    select := ["counts_hom", "AF_hom", "counts_het", "AF_het", "max_ARF"] }

def clinvarConfig : DatasetConfig :=
  { path := "gs://seqr-reference-data/GRCh38/clinvar/clinvar.GRCh38.2022-01-10.vcf.gz"
    input_type := "vcf"
    annotations := [("ALLELEID", clinvarAlleleId), ("CLNSIG", clinvarClnSig),
                    ("CLNREVSTAT", clinvarClnRevStat)]
    select := ["ALLELEID", "CLNSIG", "CLNREVSTAT"] }

def dbnsfpConfig : DatasetConfig :=
  { path := "gs://seqr-reference-data/GRCh38/all_reference_data/v2/combined_reference_data_grch38-2.0.4.ht"
    input_type := "ht"
    annotations := []
    select := ["dbnsfp"] }

/-- The registry, in source order. -/
def CONFIG : List (String × DatasetConfig) :=
  [("gnomad", gnomadConfig), ("mitomap", mitomapConfig), ("mitimpact", mitimpactConfig),
   ("hmtvar", hmtvarConfig), ("helix", helixConfig), ("clinvar", clinvarConfig),
   ("dbnsfp", dbnsfpConfig)]

/-- `CONFIG[dataset]`, as an option (the script raises `KeyError` on an
unknown name, but `run` validates the names first). -/
def lookupConfig (name : String) : Option DatasetConfig :=
  alookup CONFIG name

/-- The contig recoding map passed to `hl.import_vcf` (source lines 19-22). -/
def contig_recoding : List (String × String) :=
  [("1", "chr1"), ("10", "chr10"), ("11", "chr11"), ("12", "chr12"), ("13", "chr13"),
   ("14", "chr14"), ("15", "chr15"), ("16", "chr16"), ("17", "chr17"), ("18", "chr18"),
   ("19", "chr19"), ("2", "chr2"), ("20", "chr20"), ("21", "chr21"), ("22", "chr22"),
   ("3", "chr3"), ("4", "chr4"), ("5", "chr5"), ("6", "chr6"), ("7", "chr7"),
   ("8", "chr8"), ("9", "chr9"), ("X", "chrX"), ("Y", "chrY"), ("MT", "chrM"),
   ("NW_009646201.1", "chr1")]

/-! ### Source environment and ingestion (`load_hts`, source lines 85-113) -/

/-- The external data the engine would read: prebuilt tables, TSV files, VCF
files (rows as parsed records), JSON files (arrays of flat string objects)
and, for prebuilt tables, their attached globals.  Indexed by source path. -/
structure Env where
  htTables : String → List Row
  tsvTables : String → List Row
  vcfTables : String → List Row
  jsonFiles : String → List (List (String × String))
  globalsOf : String → List (String × Value)

/-- Outcome of the JSON ingestion branch (source lines 95-105): whether the
temporary file was created, whether it was deleted, and the rows produced. -/
structure JsonIngest where
  tempCreated : Bool
  tempDeleted : Bool
  rows : Except Err (List Row)

/-- The JSON branch as written.  After `json.load` succeeds, line 98 executes
`with tempfile.mkstemp(suffix='tsv', text=True) as f`: `mkstemp` creates the
temporary file and returns a `(fd, path)` pair, and the `with` statement then
raises because a pair does not implement the context-manager protocol.  The
`os.remove` at line 105 is on the success path only and is never reached, so
the temporary file survives.  (Even if the context manager worked, the loop
body at line 102 calls the misspelled method `f.wirte`, which would raise for
any nonempty array, and line 99 indexes `data[0]`, which would raise for an
empty one: no input reaches `hl.import_table`.) -/
def jsonIngest (data : List (List (String × String))) : JsonIngest :=
  { tempCreated := true
    tempDeleted := false
    rows := .error .tupleNotContextManager }

/-- Contig recoding applied by `hl.import_vcf` (line 94): rename the locus
contig through `contig_recoding`, leaving unmapped contigs unchanged. -/
def recodeRow (r : Row) : Row :=
  match alookup r "locus" with
  | some (.sc (.locus c p)) =>
    aset r "locus" (.sc (.locus ((alookup contig_recoding c).getD c) p))
  | _ => r

/-- Raw record table of one dataset (lines 89-105), dispatching on the
declared input type.  The script binds no `ht` for an undeclared type, which
the registry never contains; that dead branch is modelled as an error. -/
def rawTable (env : Env) (cfg : DatasetConfig) : Except Err (List Row) :=
  if cfg.input_type = "ht" then .ok (env.htTables cfg.path)
  else if cfg.input_type = "tsv" then .ok (env.tsvTables cfg.path)
  else if cfg.input_type = "vcf" then .ok ((env.vcfTables cfg.path).map recodeRow)
  else if cfg.input_type = "json" then (jsonIngest (env.jsonFiles cfg.path)).rows
  else .error .unknownInputType

/-- One `ht.annotate(**{field: func(ht) ...})` step (line 107): every
expression is evaluated against the incoming row, then the results overwrite
or extend the fields. -/
def applyAnns (anns : List (String × (Row → Except Err Value))) (r : Row) :
    Except Err Row :=
  match emapM (fun fe => (fe.2 r).map (fun v => (fe.1, v))) anns with
  | .error e => .error e
  | .ok vals => .ok (vals.foldl (fun acc fv => aset acc fv.1 fv.2) r)

/-- The nested-struct step (line 108): add a field named after the dataset
holding a struct of exactly the `select` fields of the row. -/
def addNested (name : String) (sel : List String) (r : Row) : Except Err Row :=
  match emapM (fun f => (getFieldE r f).map (fun v => (f, v))) sel with
  | .error e => .error e
  | .ok fields => .ok (aset r name (Value.struct fields))

/-- The mitochondrial filter predicate (line 109):
`ht.locus.contig == 'chrM'`. -/
def isChrM (r : Row) : Bool :=
  match alookup r "locus" with
  | some (.sc (.locus c _)) => c == "chrM"
  | _ => false

/-- The `key_by('locus', 'alleles')` step (line 110).  The keys this pipeline
builds are always scalar-valued; a struct-valued key field is rejected. -/
def keyByRow (r : Row) : Except Err (Key × Row) :=
  match alookup r "locus", alookup r "alleles" with
  | some (.sc lv), some (.sc av) => .ok ((lv, av), r)
  | some _, some _ => .error .badKeyType
  | _, _ => .error (.missingField "locus")

/-- The `ht.select(dataset)` step (line 111): the resulting row carries
exactly the named field (the key fields survive as the key). -/
def selectOnly (name : String) (r : Row) : Row :=
  match alookup r name with
  | some v => [(name, v)]
  | none => []

/-- An Annotated/Keyed Table: one dataset's output of the Loader.  Rows are
keyed by `(locus, alleles)`; `globals` are the table-level globals carried
along from a prebuilt table (later discarded by `select_globals`). -/
structure AnnTable where
  name : String
  rows : List (Key × Row)
  globals : List (String × Value)

/-- Globals attached to the raw table: prebuilt tables carry theirs, imported
text formats have none. -/
def tableGlobals (env : Env) (cfg : DatasetConfig) : List (String × Value) :=
  if cfg.input_type = "ht" then env.globalsOf cfg.path else []

/-- The per-dataset Loader (one iteration of the loop at lines 87-112):
fetch, derive, nest, filter to `chrM`, key, select. -/
def loadDataset (env : Env) (d : String) : Except Err AnnTable :=
  match lookupConfig d with
  | none => .error .unknownDataset
  | some cfg =>
    match rawTable env cfg with
    | .error e => .error e
    | .ok raws =>
      match emapM (fun r => applyAnns cfg.annotations r) raws with
      | .error e => .error e
      | .ok annotated =>
        match emapM (fun r => addNested d cfg.select r) annotated with
        | .error e => .error e
        | .ok nested =>
          match emapM keyByRow (nested.filter isChrM) with
          | .error e => .error e
          | .ok keyed =>
            .ok { name := d
                  rows := keyed.map (fun kr => (kr.1, selectOnly d kr.2))
                  globals := tableGlobals env cfg }

/-- `load_hts` (lines 85-113): the Annotated Tables of the requested
datasets, in request order; any failure aborts the whole load. -/
def load_hts (env : Env) (datasets : List String) : Except Err (List AnnTable) :=
  emapM (loadDataset env) datasets

/-! ### The Joiner (`join_hts`, source lines 116-127) -/

/-- The Joined Table: one column (an optional nested struct) per dataset, in
request order; a row is its key plus the per-dataset optional values. -/
structure JoinedTable where
  names : List String
  rows : List (Key × List (Option Value))
  globals : List (String × Value)

/-- The nested value a dataset contributes at a key: the dataset-named field
of the row with that key, if any. -/
def dsValue (t : AnnTable) (k : Key) : Option Value :=
  match alookup t.rows k with
  | some fields => alookup fields t.name
  | none => none

/-- A single Annotated Table viewed as a Joined Table (the initial
accumulator of the fold). -/
def initJoined (t : AnnTable) : JoinedTable :=
  { names := [t.name]
    rows := t.rows.map (fun r => (r.1, [dsValue t r.1]))
    globals := t.globals }

/-- One outer-join step `joined_ht.join(ht, 'outer')` (line 119): rows of the
left table gain the right value at their key (or `none`); keys only on the
right are appended with `none` for every left column. -/
def joinStep (j : JoinedTable) (t : AnnTable) : JoinedTable :=
  { names := j.names ++ [t.name]
    rows :=
      j.rows.map (fun r => (r.1, r.2 ++ [dsValue t r.1]))
        ++ (t.rows.filter (fun r => (alookup j.rows r.1).isNone)).map
            (fun r => (r.1, List.replicate j.names.length none ++ [dsValue t r.1]))
    globals := j.globals }

/-- The left fold of outer joins (`reduce` at line 119).  Python `reduce`
raises on an empty list; the empty case here is inert (callers reject it). -/
def joinAll (ts : List AnnTable) : JoinedTable :=
  match ts with
  | [] => { names := [], rows := [], globals := [] }
  | t :: rest => rest.foldl joinStep (initJoined t)

/-- The provenance map (line 122): `{k: v['path'] for k, v in CONFIG.items()
if k in datasets}`, in registry order. -/
def includedDatasets (datasets : List String) : List (String × String) :=
  (CONFIG.filter (fun p => decide (p.1 ∈ datasets))).map (fun p => (p.1, p.2.path))

/-- The `select_globals` step (lines 124-125): replace all table globals with
the run date and the provenance dictionary. -/
def attachMeta (j : JoinedTable) (datasets : List String) (now : String) : JoinedTable :=
  { j with globals := [("date", Value.sc (.str now)),
                       ("datasets", Value.sc (.strDict (includedDatasets datasets)))] }

/-- `join_hts` (lines 116-127): load, fold the outer joins, attach metadata.
The run timestamp (`datetime.now()`) enters as the explicit `now` argument. -/
def join_hts (env : Env) (datasets : List String) (now : String) :
    Except Err JoinedTable :=
  match load_hts env datasets with
  | .error e => .error e
  | .ok ts =>
    match ts with
    | [] => .error .reduceOnEmpty
    | t :: rest => .ok (attachMeta (joinAll (t :: rest)) datasets now)

/-! ### The Driver (`run`, source lines 130-143, and the CLI, lines 146-155) -/

/-- The output side of the world: a map from output paths to written
artifacts. -/
abbrev FileSystem := List (String × JoinedTable)

/-- Modelled from the spec: the engine write invoked at line 142 fails on an
existing destination unless `overwrite` is set, and otherwise replaces it
(spec sections 4.4 and 7; `Table.write` is engine code outside the repo). -/
def writeTable (fs : FileSystem) (path : String) (t : JoinedTable)
    (overwrite : Bool) : Except Err FileSystem :=
  if (alookup fs path).isSome && !overwrite then .error .outputExists
  else .ok (aset fs path t)

/-- Modelled from the spec: the CLI flag `force-write` (short form `-f`) is
declared with a store-true action (line 152), whose value when the flag is
absent is false (argument parsing is stdlib code outside the repo). -/
def forceWriteDefault : Bool := false

/-- Splitting accumulator: current fragment collected in reverse. -/
def splitCommaAux : List Char → List Char → List String
  | [], acc => [String.mk acc.reverse]
  | c :: rest, acc =>
    if c = ',' then String.mk acc.reverse :: splitCommaAux rest []
    else splitCommaAux rest (c :: acc)

/-- Python `str.split(',')` (line 132): split on every comma; the empty
string yields one empty fragment. -/
def splitComma (s : String) : List String :=
  splitCommaAux s.data []

/-- Parsed command-line arguments. -/
structure Args where
  dataset : String
  output_path : String
  force_write : Bool

/-- Outcome of a run: aborted on invalid names (with the reported names and
count), failed during load/join, failed at the write, or completed. -/
inductive RunOutcome where
  | aborted (invalid : List String) (count : Nat)
  | loadFailed (e : Err)
  | writeFailed
  | done
deriving DecidableEq, Repr

/-- Observable result of a run: its outcome, the state of the output
location, and the source paths opened for reading. -/
structure RunResult where
  outcome : RunOutcome
  fs : FileSystem
  pathsRead : List String

/-- Source paths opened while loading the datasets in order: each known
dataset's path is opened, and loading stops at the first failure (an unknown
name raises before any open; `run` never reaches that case). -/
def pathsReadDuring (env : Env) : List String → List String
  | [] => []
  | d :: rest =>
    match lookupConfig d with
    | none => []
    | some cfg =>
      cfg.path ::
        (match loadDataset env d with
         | .ok _ => pathsReadDuring env rest
         | .error _ => [])

/-- `run` (lines 130-143): split the requested names, validate them against
the registry and abort with the invalid names and their count if any, else
join and write (honouring the overwrite flag). -/
def run (env : Env) (fs : FileSystem) (now : String) (args : Args) : RunResult :=
  let datasets := splitComma args.dataset
  let notSupported := datasets.filter (fun d => (lookupConfig d).isNone)
  if notSupported.length > 0 then
    { outcome := .aborted notSupported notSupported.length, fs := fs, pathsRead := [] }
  else
    match join_hts env datasets now with
    | .error e =>
      { outcome := .loadFailed e, fs := fs, pathsRead := pathsReadDuring env datasets }
    | .ok j =>
      match writeTable fs args.output_path j args.force_write with
      | .error _ =>
        { outcome := .writeFailed, fs := fs, pathsRead := pathsReadDuring env datasets }
      | .ok fs2 =>
        { outcome := .done, fs := fs2, pathsRead := pathsReadDuring env datasets }

/-! ### Views used by the claim statements -/

/-- The tables a load produced (empty on failure). -/
def loadedTables (env : Env) (datasets : List String) : List AnnTable :=
  match load_hts env datasets with
  | .ok ts => ts
  | .error _ => []

/-- The Annotated Table of one dataset (inert on failure). -/
def annTableOf (env : Env) (d : String) : AnnTable :=
  match loadDataset env d with
  | .ok t => t
  | .error _ => { name := d, rows := [], globals := [] }

/-- The joined table of a load, before metadata attachment. -/
def joinedOf (env : Env) (datasets : List String) : JoinedTable :=
  joinAll (loadedTables env datasets)

/-- Keys of a Joined Table. -/
def rowKeys (j : JoinedTable) : List Key :=
  j.rows.map Prod.fst

/-- Keys of an Annotated Table. -/
def tableKeys (t : AnnTable) : List Key :=
  t.rows.map Prod.fst

/-- The value of column `i` at key `k` of a Joined Table (looking up the
first row with that key). -/
def valueAt (j : JoinedTable) (i : Nat) (k : Key) : Option Value :=
  ((alookup j.rows k).bind (fun vs => vs.get? i)).bind id

/-- The environment with no data anywhere. -/
def envEmpty : Env :=
  { htTables := fun _ => [], tsvTables := fun _ => [], vcfTables := fun _ => []
    jsonFiles := fun _ => [], globalsOf := fun _ => [] }

/-- Invariant of the join fold relative to the tables already folded in:
column names count, key-set union, row widths, and per-column values. -/
def JInv (J : JoinedTable) (ts0 : List AnnTable) : Prop :=
  J.names.length = ts0.length ∧
  (∀ k, (alookup J.rows k).isSome = true ↔ ∃ t ∈ ts0, k ∈ tableKeys t) ∧
  (∀ k vs, alookup J.rows k = some vs → vs.length = ts0.length) ∧
  (∀ i k, (hi : i < ts0.length) → valueAt J i k = dsValue ts0[i] k)

/-! ### Fixtures and views for the claims -/

/-- Success test for a pipeline result. -/
def eisOk {α : Type} (x : Except Err α) : Bool :=
  match x with
  | .ok _ => true
  | .error _ => false

/-- Everything of a Joined Table except the run date: names, rows, and the
`datasets` global. -/
def stripTimestamp (j : JoinedTable) :
    List String × List (Key × List (Option Value)) × Option Value :=
  (j.names, j.rows, alookup j.globals "datasets")

/-- A mitomap row whose `Allele` text matches no pattern. -/
def mitomapBadRow : Row :=
  [("Allele", Value.sc (.str "bogus")), ("Associated Diseases", Value.sc (.str "x"))]

/-- Environment serving the bad row as the mitomap TSV. -/
def envMitomapBad : Env :=
  { envEmpty with tsvTables := fun p => if p = mitomapConfig.path then [mitomapBadRow] else [] }

/-- A well-formed dbnsfp row. -/
def dbnsfpRow1 : Row :=
  [("locus", Value.sc (.locus "chrM" 3)), ("alleles", Value.sc (.strArr ["A", "C"])),
   ("dbnsfp", Value.sc (.str "x"))]

/-- Environment serving one dbnsfp row. -/
def envDbnsfp1 : Env :=
  { envEmpty with htTables := fun p => if p = dbnsfpConfig.path then [dbnsfpRow1] else [] }

/-- Two dbnsfp rows (keys k1, k2) and two gnomad rows (keys k2, k3), for the
outer-join witness. -/
def dbnsfpRowAt (pos : Int) : Row :=
  [("locus", Value.sc (.locus "chrM" pos)), ("alleles", Value.sc (.strArr ["A", "C"])),
   ("dbnsfp", Value.sc (.str "x"))]

def gnomadRowAt (pos : Int) : Row :=
  [("locus", Value.sc (.locus "chrM" pos)), ("alleles", Value.sc (.strArr ["A", "C"])),
   ("AN", Value.sc (.int 10)), ("AC_hom", Value.sc (.int 1)), ("AC_het", Value.sc (.int 2)),
   ("AF_hom", Value.sc (.str "0.1")), ("AF_het", Value.sc (.str "0.2")),
   ("max_hl", Value.sc (.str "0.9"))]

def envJoinPair : Env :=
  { envEmpty with
    htTables := fun p =>
      if p = dbnsfpConfig.path then [dbnsfpRowAt 1, dbnsfpRowAt 2]
      else if p = gnomadConfig.path then [gnomadRowAt 2, gnomadRowAt 3]
      else [] }

/-- An inert Joined Table artifact. -/
def emptyJoined : JoinedTable :=
  { names := [], rows := [], globals := [] }

/-- A file system already holding an artifact at `out`. -/
def fsExisting : FileSystem :=
  [("out", emptyJoined)]

theorem afindRow_isSome_iff {κ α : Type} [DecidableEq κ] (rows : List (κ × α)) (k : κ) :
    (afindRow rows k).isSome = true ↔ k ∈ rows.map Prod.fst := by
  induction rows with
  | nil => simp [afindRow]
  | cons r rest ih =>
    by_cases h : r.1 = k
    · simp [afindRow, h]
    · simp [afindRow, h, ih, Ne.symm h]

theorem afindRow_eq_some {κ α : Type} [DecidableEq κ] {rows : List (κ × α)} {k : κ}
    {r : κ × α} (h : afindRow rows k = some r) : r ∈ rows ∧ r.1 = k := by
  induction rows with
  | nil => simp [afindRow] at h
  | cons p rest ih =>
    by_cases hp : p.1 = k
    · simp [afindRow, hp] at h
      subst h
      exact ⟨List.mem_cons_self _ _, hp⟩
    · simp [afindRow, hp] at h
      rcases ih h with ⟨hmem, hk⟩
      exact ⟨List.mem_cons_of_mem _ hmem, hk⟩

theorem afindRow_append {κ α : Type} [DecidableEq κ] (xs ys : List (κ × α)) (k : κ) :
    afindRow (xs ++ ys) k =
      (match afindRow xs k with
       | some r => some r
       | none => afindRow ys k) := by
  induction xs with
  | nil => simp [afindRow]
  | cons r rest ih =>
    by_cases h : r.1 = k
    · simp [afindRow, h]
    · simpa [afindRow, h] using ih

theorem afindRow_map_fst {κ α β : Type} [DecidableEq κ] (rows : List (κ × α))
    (g : κ × α → β) (k : κ) :
    afindRow (rows.map (fun r => (r.1, g r))) k =
      (afindRow rows k).map (fun r => (r.1, g r)) := by
  induction rows with
  | nil => simp [afindRow]
  | cons r rest ih =>
    by_cases h : r.1 = k
    · simp [afindRow, h]
    · simpa [afindRow, h] using ih

theorem afindRow_filter_key {κ α : Type} [DecidableEq κ] (rows : List (κ × α))
    (q : κ → Bool) (k : κ) :
    afindRow (rows.filter (fun r => q r.1)) k =
      (if q k then afindRow rows k else none) := by
  induction rows with
  | nil => simp [afindRow]
  | cons r rest ih =>
    by_cases h : r.1 = k
    · subst h
      by_cases hq : q r.1
      · simp [afindRow, hq, List.filter_cons]
      · simpa [afindRow, hq, List.filter_cons] using ih
    · by_cases hq : q r.1 <;> simp [afindRow, hq, h, List.filter_cons, ih]

theorem alookup_isSome_iff {κ α : Type} [DecidableEq κ] (rows : List (κ × α)) (k : κ) :
    (alookup rows k).isSome = true ↔ k ∈ rows.map Prod.fst := by
  rw [← afindRow_isSome_iff]
  cases h : afindRow rows k <;> simp [alookup, h]

theorem alookup_aset_self {κ α : Type} [DecidableEq κ] (rows : List (κ × α)) (k : κ) (v : α) :
    alookup (aset rows k v) k = some v := by
  induction rows with
  | nil => simp [aset, alookup, afindRow]
  | cons r rest ih =>
    by_cases h : r.1 = k
    · simp [aset, h, alookup, afindRow]
    · simpa [aset, h, alookup, afindRow] using ih

theorem emapM_ok_length {α β : Type} {f : α → Except Err β} :
    ∀ {xs : List α} {ys : List β}, emapM f xs = .ok ys → ys.length = xs.length := by
  intro xs
  induction xs with
  | nil => intro ys h; simp [emapM] at h; simp [← h]
  | cons x rest ih =>
    intro ys h
    cases hx : f x with
    | error e => simp [emapM, hx] at h
    | ok y =>
      cases hr : emapM f rest with
      | error e => simp [emapM, hx, hr] at h
      | ok zs =>
        simp [emapM, hx, hr] at h
        subst h
        simp [ih hr]

theorem emapM_error_of_mem {α β : Type} {f : α → Except Err β} {x : α} {e : Err} :
    ∀ {xs : List α}, x ∈ xs → f x = .error e → ∃ e2, emapM f xs = .error e2 := by
  intro xs
  induction xs with
  | nil => intro h; simp at h
  | cons y rest ih =>
    intro hmem hfail
    rcases List.mem_cons.mp hmem with h | h
    · subst h
      exact ⟨e, by simp [emapM, hfail]⟩
    · cases hy : f y with
      | error e2 => exact ⟨e2, by simp [emapM, hy]⟩
      | ok v =>
        rcases ih h hfail with ⟨e2, h2⟩
        exact ⟨e2, by simp [emapM, hy, h2]⟩

theorem emapM_ok_mem {α β : Type} {f : α → Except Err β} :
    ∀ {xs : List α} {ys : List β}, emapM f xs = .ok ys →
      ∀ y ∈ ys, ∃ x ∈ xs, f x = .ok y := by
  intro xs
  induction xs with
  | nil =>
    intro ys h
    simp [emapM] at h
    subst h
    intro y hy
    simp at hy
  | cons x rest ih =>
    intro ys h y hy
    cases hx : f x with
    | error e => simp [emapM, hx] at h
    | ok v =>
      cases hr : emapM f rest with
      | error e => simp [emapM, hx, hr] at h
      | ok zs =>
        simp [emapM, hx, hr] at h
        subst h
        rcases List.mem_cons.mp hy with h | h
        · exact ⟨x, List.mem_cons_self _ _, by simp [hx, h]⟩
        · rcases ih hr y h with ⟨x2, hx2, hfx2⟩
          exact ⟨x2, List.mem_cons_of_mem _ hx2, hfx2⟩

theorem emapM_pair_fst {β : Type} {g : String → Except Err β} :
    ∀ {xs : List String} {l : List (String × β)},
      emapM (fun a => (g a).map (fun v => (a, v))) xs = .ok l →
      l.map Prod.fst = xs := by
  intro xs
  induction xs with
  | nil => intro l h; simp [emapM] at h; simp [← h]
  | cons x rest ih =>
    intro l h
    cases hx : g x with
    | error e =>
      have hFx : (g x).map (fun v => (x, v)) = (.error e : Except Err (String × β)) := by
        rw [hx]; rfl
      simp [emapM, hFx] at h
    | ok v =>
      have hFx : (g x).map (fun v => (x, v)) = (.ok (x, v) : Except Err (String × β)) := by
        rw [hx]; rfl
      cases hr : emapM (fun a => (g a).map (fun v => (a, v))) rest with
      | error e => simp [emapM, hFx, hr] at h
      | ok zs =>
        simp [emapM, hFx, hr] at h
        subst h
        simp [ih hr]

/-! ### Structure of a successfully loaded table -/

theorem isChrM_eq_true {r : Row} (h : isChrM r = true) :
    ∃ p, alookup r "locus" = some (.sc (.locus "chrM" p)) := by
  unfold isChrM at h
  cases hl : alookup r "locus" with
  | none => simp [hl] at h
  | some v =>
    cases v with
    | struct fields => simp [hl] at h
    | sc s =>
      cases s with
      | locus c p =>
        simp [hl] at h
        subst h
        exact ⟨p, rfl⟩
      | str s => simp [hl] at h
      | int n => simp [hl] at h
      | bool b => simp [hl] at h
      | strArr a => simp [hl] at h
      | strDict e => simp [hl] at h

theorem addNested_ok {d : String} {sel : List String} {r r2 : Row}
    (h : addNested d sel r = .ok r2) :
    ∃ fields, r2 = aset r d (Value.struct fields) ∧ fields.map Prod.fst = sel := by
  unfold addNested at h
  cases hm : emapM (fun f => (getFieldE r f).map (fun v => (f, v))) sel with
  | error e => simp [hm] at h
  | ok fields =>
    simp [hm] at h
    exact ⟨fields, h.symm, emapM_pair_fst hm⟩

theorem selectOnly_aset (r : Row) (d : String) (v : Value) :
    selectOnly d (aset r d v) = [(d, v)] := by
  unfold selectOnly
  rw [alookup_aset_self]
theorem keyByRow_ok {r : Row} {kr : Key × Row} (h : keyByRow r = .ok kr) :
    kr.2 = r ∧ alookup r "locus" = some (.sc kr.1.1) ∧
      alookup r "alleles" = some (.sc kr.1.2) := by
  unfold keyByRow at h
  split at h
  · injection h with h2
    subst h2
    rename_i lv av hl ha
    exact ⟨rfl, hl, ha⟩
  · exact absurd h (by simp)
  · exact absurd h (by simp)
theorem loadDataset_ok_parts {env : Env} {d : String} {t : AnnTable}
    (h : loadDataset env d = .ok t) :
    ∃ cfg raws annotated nested keyed,
      lookupConfig d = some cfg ∧
      rawTable env cfg = .ok raws ∧
      emapM (fun r => applyAnns cfg.annotations r) raws = .ok annotated ∧
      emapM (fun r => addNested d cfg.select r) annotated = .ok nested ∧
      emapM keyByRow (nested.filter isChrM) = .ok keyed ∧
      t = { name := d
            rows := keyed.map (fun kr => (kr.1, selectOnly d kr.2))
            globals := tableGlobals env cfg } := by
  unfold loadDataset at h
  cases hc : lookupConfig d with
  | none => simp only [hc] at h; exact Except.noConfusion h
  | some cfg =>
    simp only [hc] at h
    cases hraw : rawTable env cfg with
    | error e => simp only [hraw] at h; exact Except.noConfusion h
    | ok raws =>
      simp only [hraw] at h
      cases hann : emapM (fun r => applyAnns cfg.annotations r) raws with
      | error e => simp only [hann] at h; exact Except.noConfusion h
      | ok annotated =>
        simp only [hann] at h
        cases hnest : emapM (fun r => addNested d cfg.select r) annotated with
        | error e => simp only [hnest] at h; exact Except.noConfusion h
        | ok nested =>
          simp only [hnest] at h
          cases hkey : emapM keyByRow (nested.filter isChrM) with
          | error e => simp only [hkey] at h; exact Except.noConfusion h
          | ok keyed =>
            simp only [hkey] at h
            injection h with h2
            exact ⟨cfg, raws, annotated, nested, keyed, rfl, hraw, hann, hnest, hkey, h2.symm⟩

/-- Every row of a successfully loaded Annotated Table carries exactly the
dataset-named nested struct of the retained fields, and its key locus lies on
`chrM`. -/
theorem loadDataset_shape {env : Env} {d : String} {cfg : DatasetConfig} {t : AnnTable}
    (hc : lookupConfig d = some cfg) (h : loadDataset env d = .ok t) :
    t.name = d ∧
    ∀ kr ∈ t.rows,
      (∃ l, kr.2 = [(d, Value.struct l)] ∧ l.map Prod.fst = cfg.select) ∧
      (∃ p, kr.1.1 = Scalar.locus "chrM" p) := by
  obtain ⟨cfg2, raws, annotated, nested, keyed, hc2, hraw, hann, hnest, hkey, ht⟩ :=
    loadDataset_ok_parts h
  rw [hc] at hc2
  injection hc2 with hcfg
  subst hcfg
  subst ht
  refine ⟨rfl, ?_⟩
  intro kr hkr
  obtain ⟨kr0, hkr0, hmap⟩ := List.mem_map.mp hkr
  obtain ⟨r, hrmem, hkey0⟩ := emapM_ok_mem hkey kr0 hkr0
  have hkb := keyByRow_ok hkey0
  have hchrM : isChrM r = true := (List.mem_filter.mp hrmem).2
  have hrnested : r ∈ nested := (List.mem_filter.mp hrmem).1
  obtain ⟨r1, hr1mem, hr1⟩ := emapM_ok_mem hnest r hrnested
  obtain ⟨fields, hr_eq, hfieldnames⟩ := addNested_ok hr1
  subst hmap
  constructor
  · refine ⟨fields, ?_, hfieldnames⟩
    show selectOnly d kr0.2 = [(d, Value.struct fields)]
    rw [hkb.1, hr_eq]
    exact selectOnly_aset r1 d (Value.struct fields)
  · obtain ⟨p, hlocus⟩ := isChrM_eq_true hchrM
    have hlk := hkb.2.1
    rw [hlocus] at hlk
    injection hlk with hlk2
    injection hlk2 with hlk3
    exact ⟨p, hlk3.symm⟩

/-- Lookup in a singleton association list. -/
theorem alookup_singleton {κ α : Type} [DecidableEq κ] (k : κ) (v : α) :
    alookup [(k, v)] k = some v := by
  simp [alookup, afindRow]

/-- Support view of `loadDataset_shape` for the join proofs: every table that
`load_hts` produced has its nested field present on every row, and all keys
on `chrM`. -/
theorem load_hts_tables_shape {env : Env} {ds : List String} {ts : List AnnTable}
    (h : load_hts env ds = .ok ts) :
    ∀ t ∈ ts, ∀ kr ∈ t.rows,
      (alookup kr.2 t.name).isSome = true ∧ ∃ p, kr.1.1 = Scalar.locus "chrM" p := by
  intro t ht kr hkr
  obtain ⟨d, _, hload⟩ := emapM_ok_mem h t ht
  obtain ⟨cfg, raws, annotated, nested, keyed, hc, _⟩ := loadDataset_ok_parts hload
  have hshape := loadDataset_shape hc hload
  have hrow := hshape.2 kr hkr
  obtain ⟨l, hfields, _⟩ := hrow.1
  constructor
  · rw [hshape.1, hfields, alookup_singleton]
    rfl
  · exact hrow.2

/-! ### Outer-join fold invariant -/

theorem alookup_eq_none_iff {κ α : Type} [DecidableEq κ] (rows : List (κ × α)) (k : κ) :
    alookup rows k = none ↔ k ∉ rows.map Prod.fst := by
  constructor
  · intro h hmem
    have hs := (alookup_isSome_iff rows k).mpr hmem
    rw [h] at hs
    simp at hs
  · intro h
    cases hl : alookup rows k with
    | none => rfl
    | some v => exact absurd ((alookup_isSome_iff rows k).mp (by simp [hl])) h

theorem alookup_map_pair {κ α β : Type} [DecidableEq κ] (rows : List (κ × α))
    (g : κ × α → β) (k : κ) :
    alookup (rows.map (fun r => (r.1, g r))) k = (afindRow rows k).map g := by
  unfold alookup
  rw [afindRow_map_fst rows g k]
  cases afindRow rows k <;> simp

theorem alookup_append {κ α : Type} [DecidableEq κ] (xs ys : List (κ × α)) (k : κ) :
    alookup (xs ++ ys) k =
      (match alookup xs k with
       | some v => some v
       | none => alookup ys k) := by
  unfold alookup
  rw [afindRow_append]
  cases afindRow xs k <;> simp

/-- The row of the joined table at a key, after one join step: rows already
present gain the right-hand value, right-only keys appear padded with `none`. -/
theorem alookup_joinStep (J : JoinedTable) (t : AnnTable) (k : Key) :
    alookup (joinStep J t).rows k =
      (match afindRow J.rows k with
       | some r0 => some (r0.2 ++ [dsValue t r0.1])
       | none =>
         match afindRow t.rows k with
         | some r1 => some (List.replicate J.names.length none ++ [dsValue t r1.1])
         | none => none) := by
  show alookup
      (J.rows.map (fun r => (r.1, r.2 ++ [dsValue t r.1]))
        ++ (t.rows.filter (fun r => (alookup J.rows r.1).isNone)).map
            (fun r => (r.1, List.replicate J.names.length none ++ [dsValue t r.1]))) k = _
  rw [alookup_append]
  rw [alookup_map_pair J.rows (fun r => r.2 ++ [dsValue t r.1]) k]
  rw [alookup_map_pair (t.rows.filter (fun r => (alookup J.rows r.1).isNone))
      (fun r => List.replicate J.names.length none ++ [dsValue t r.1]) k]
  rw [afindRow_filter_key t.rows (fun x => (alookup J.rows x).isNone) k]
  cases hJ : afindRow J.rows k with
  | some r0 => simp
  | none =>
    have hn : (alookup J.rows k).isNone = true := by simp [alookup, hJ]
    rw [hn]
    cases hT : afindRow t.rows k with
    | some r1 => simp
    | none => simp

theorem alookup_initJoined (t : AnnTable) (k : Key) :
    alookup (initJoined t).rows k = (afindRow t.rows k).map (fun r => [dsValue t r.1]) := by
  show alookup (t.rows.map (fun r => (r.1, [dsValue t r.1]))) k = _
  exact alookup_map_pair t.rows (fun r => [dsValue t r.1]) k

theorem jinv_init (t : AnnTable) : JInv (initJoined t) [t] := by
  refine ⟨rfl, ?_, ?_, ?_⟩
  · intro k
    rw [alookup_initJoined]
    constructor
    · intro hs
      cases hT : afindRow t.rows k with
      | none => rw [hT] at hs; simp at hs
      | some r0 =>
        have h1 := afindRow_eq_some hT
        refine ⟨t, by simp, ?_⟩
        show k ∈ t.rows.map Prod.fst
        exact List.mem_map.mpr ⟨r0, h1.1, h1.2⟩
    · rintro ⟨t2, ht2, hk2⟩
      have ht2t : t2 = t := by simpa using ht2
      subst ht2t
      have hs := (afindRow_isSome_iff t2.rows k).mpr hk2
      cases hT : afindRow t2.rows k with
      | none => rw [hT] at hs; simp at hs
      | some r0 => simp
  · intro k vs hvs
    rw [alookup_initJoined] at hvs
    cases hT : afindRow t.rows k with
    | none => rw [hT] at hvs; simp at hvs
    | some r0 =>
      rw [hT] at hvs
      simp at hvs
      simp [← hvs]
  · intro i k hi
    have hi0 : i = 0 := by simpa using hi
    subst hi0
    simp only [valueAt, alookup_initJoined]
    cases hT : afindRow t.rows k with
    | none =>
      have hn : alookup t.rows k = none := by simp [alookup, hT]
      simp [dsValue, hn]
    | some r0 =>
      have hks : r0.1 = k := (afindRow_eq_some hT).2
      simp [hks]

theorem jinv_step {J : JoinedTable} {ts0 : List AnnTable} (t : AnnTable)
    (inv : JInv J ts0) : JInv (joinStep J t) (ts0 ++ [t]) := by
  obtain ⟨hlen, hmem, hvslen, hval⟩ := inv
  refine ⟨?_, ?_, ?_, ?_⟩
  · simp [joinStep, hlen]
  · intro k
    cases hJ : afindRow J.rows k with
    | some r0 =>
      have halk : alookup (joinStep J t).rows k = some (r0.2 ++ [dsValue t r0.1]) := by
        rw [alookup_joinStep, hJ]
      have hx : (alookup J.rows k).isSome = true := by simp [alookup, hJ]
      obtain ⟨t2, ht2, hk2⟩ := (hmem k).mp hx
      rw [halk]
      simp only [Option.isSome_some, true_iff]
      exact ⟨t2, by simp [ht2], hk2⟩
    | none =>
      have hnone : alookup J.rows k = none := by simp [alookup, hJ]
      cases hT : afindRow t.rows k with
      | some r1 =>
        have halk : alookup (joinStep J t).rows k
            = some (List.replicate J.names.length none ++ [dsValue t r1.1]) := by
          rw [alookup_joinStep, hJ, hT]
        have h1 := afindRow_eq_some hT
        rw [halk]
        simp only [Option.isSome_some, true_iff]
        refine ⟨t, by simp, ?_⟩
        exact List.mem_map.mpr ⟨r1, h1.1, h1.2⟩
      | none =>
        have halk : alookup (joinStep J t).rows k = none := by
          rw [alookup_joinStep, hJ, hT]
        rw [halk]
        constructor
        · intro h
          exact absurd h (by simp)
        · rintro ⟨t2, ht2, hk2⟩
          rcases List.mem_append.mp ht2 with h2 | h2
          · have := (hmem k).mpr ⟨t2, h2, hk2⟩
            rw [hnone] at this
            simp at this
          · have ht2t : t2 = t := by simpa using h2
            subst ht2t
            have := (afindRow_isSome_iff t2.rows k).mpr hk2
            rw [hT] at this
            simp at this
  · intro k vs hvs
    cases hJ : afindRow J.rows k with
    | some r0 =>
      have halk : alookup (joinStep J t).rows k = some (r0.2 ++ [dsValue t r0.1]) := by
        rw [alookup_joinStep, hJ]
      rw [halk] at hvs
      have h0 : alookup J.rows k = some r0.2 := by simp [alookup, hJ]
      have h2 := hvslen k r0.2 h0
      injection hvs with hvs2
      simp [← hvs2, h2]
    | none =>
      cases hT : afindRow t.rows k with
      | some r1 =>
        have halk : alookup (joinStep J t).rows k
            = some (List.replicate J.names.length none ++ [dsValue t r1.1]) := by
          rw [alookup_joinStep, hJ, hT]
        rw [halk] at hvs
        injection hvs with hvs2
        simp [← hvs2, hlen]
      | none =>
        have halk : alookup (joinStep J t).rows k = none := by
          rw [alookup_joinStep, hJ, hT]
        rw [halk] at hvs
        exact Option.noConfusion hvs
  · intro i k hi
    have hi2 : i < ts0.length + 1 := by simpa using hi
    have hdnone : afindRow J.rows k = none →
        ∀ (h2 : i < ts0.length), dsValue ts0[i] k = none := by
      intro hJ h2
      have hnone : alookup J.rows k = none := by simp [alookup, hJ]
      have hmemi : ts0[i] ∈ ts0 := List.getElem_mem h2
      have hki : k ∉ tableKeys ts0[i] := by
        intro hk2
        have := (hmem k).mpr ⟨ts0[i], hmemi, hk2⟩
        rw [hnone] at this
        simp at this
      have hn := (alookup_eq_none_iff (ts0[i]).rows k).mpr hki
      unfold dsValue
      rw [hn]
    cases hJ : afindRow J.rows k with
    | some r0 =>
      have hks : r0.1 = k := (afindRow_eq_some hJ).2
      have hvs : alookup J.rows k = some r0.2 := by simp [alookup, hJ]
      have hlen0 : r0.2.length = ts0.length := hvslen k r0.2 hvs
      have halk : alookup (joinStep J t).rows k = some (r0.2 ++ [dsValue t r0.1]) := by
        rw [alookup_joinStep, hJ]
      by_cases hlt : i < ts0.length
      · have h1 : (r0.2 ++ [dsValue t r0.1]).get? i = r0.2.get? i :=
          List.get?_append (by omega)
        have h3 : (ts0 ++ [t])[i] = ts0[i] := List.getElem_append_left hlt
        have h2 := hval i k hlt
        simp only [valueAt, hvs, Option.some_bind] at h2
        simp only [valueAt, halk, Option.some_bind, h1, h3]
        exact h2
      · have hieq : i = ts0.length := by omega
        subst hieq
        have halk2 : alookup (joinStep J t).rows k = some (r0.2 ++ [dsValue t k]) := by
          rw [halk, hks]
        have h1 : (r0.2 ++ [dsValue t k]).get? ts0.length = some (dsValue t k) := by
          rw [← hlen0]
          exact List.get?_concat_length _ _
        have h4 : (ts0 ++ [t])[ts0.length] = t := by simp
        simp only [valueAt, halk2, Option.some_bind, h1]
        simp [h4]
    | none =>
      cases hT : afindRow t.rows k with
      | some r1 =>
        have hks : r1.1 = k := (afindRow_eq_some hT).2
        have halk : alookup (joinStep J t).rows k
            = some (List.replicate J.names.length none ++ [dsValue t r1.1]) := by
          rw [alookup_joinStep, hJ, hT]
        by_cases hlt : i < ts0.length
        · have h1 : (List.replicate J.names.length (none : Option Value)
              ++ [dsValue t r1.1]).get? i = some none := by
            rw [List.get?_append (by simp [hlen]; omega)]
            simp [List.get?_eq_getElem?, List.getElem?_replicate]
            omega
          have h3 : (ts0 ++ [t])[i] = ts0[i] := List.getElem_append_left hlt
          simp only [valueAt, halk, Option.some_bind, h1, h3]
          simp [hdnone hJ hlt]
        · have hieq : i = ts0.length := by omega
          subst hieq
          have halk2 : alookup (joinStep J t).rows k
              = some (List.replicate J.names.length none ++ [dsValue t k]) := by
            rw [halk, hks]
          have h1 : (List.replicate J.names.length (none : Option Value)
              ++ [dsValue t k]).get? ts0.length = some (dsValue t k) := by
            have hrl : (List.replicate J.names.length (none : Option Value)).length
                = ts0.length := by simp [hlen]
            rw [← hrl]
            exact List.get?_concat_length _ _
          have h4 : (ts0 ++ [t])[ts0.length] = t := by simp
          simp only [valueAt, halk2, Option.some_bind, h1]
          simp [h4]
      | none =>
        have halk : alookup (joinStep J t).rows k = none := by
          rw [alookup_joinStep, hJ, hT]
        by_cases hlt : i < ts0.length
        · have h3 : (ts0 ++ [t])[i] = ts0[i] := List.getElem_append_left hlt
          simp only [valueAt, halk, Option.none_bind, h3]
          simp [hdnone hJ hlt]
        · have hieq : i = ts0.length := by omega
          subst hieq
          have h4 : (ts0 ++ [t])[ts0.length] = t := by simp
          have hn : alookup t.rows k = none := by simp [alookup, hT]
          simp only [valueAt, halk, Option.none_bind, h4]
          unfold dsValue
          rw [hn]

theorem jinv_foldl (rest : List AnnTable) :
    ∀ (J : JoinedTable) (ts0 : List AnnTable),
      JInv J ts0 → JInv (rest.foldl joinStep J) (ts0 ++ rest) := by
  induction rest with
  | nil => intro J ts0 h; simpa using h
  | cons t rest ih =>
    intro J ts0 h
    have h2 := jinv_step t h
    have h3 := ih (joinStep J t) (ts0 ++ [t]) h2
    simpa using h3

theorem joinAll_inv {ts : List AnnTable} (hne : ts ≠ []) : JInv (joinAll ts) ts := by
  cases ts with
  | nil => exact absurd rfl hne
  | cons t rest =>
    have h := jinv_foldl rest (initJoined t) [t] (jinv_init t)
    simpa [joinAll] using h

/-! ### Claims -/

/-- C2: for every dataset whose descriptor has input type `json`, the Loader
raises an exception regardless of the file content and never produces an
Annotated Table: the JSON-format ingestion branch never completes
successfully. -/
theorem c2_json_branch_never_succeeds (env : Env) (d : String) (cfg : DatasetConfig)
    (h1 : lookupConfig d = some cfg) (h2 : cfg.input_type = "json") :
    ∃ e, loadDataset env d = .error e := by
  have hraw : rawTable env cfg = .error .tupleNotContextManager := by
    unfold rawTable
    rw [h2]
    simp [jsonIngest]
  refine ⟨.tupleNotContextManager, ?_⟩
  unfold loadDataset
  simp only [h1, hraw]

/-- C2 witness: the `hmtvar` dataset is declared with input type `json` and
fails to load from any environment, here the empty one. -/
theorem c2_witness :
    lookupConfig "hmtvar" = some hmtvarConfig ∧
    hmtvarConfig.input_type = "json" ∧
    ∃ e, loadDataset envEmpty "hmtvar" = .error e :=
  ⟨rfl, rfl, c2_json_branch_never_succeeds envEmpty "hmtvar" hmtvarConfig rfl rfl⟩

/-- C8: the temporary file of the JSON ingestion branch is not a safely
scoped resource in the reference code: for the concrete hmtvar-style input
below, ingestion creates the temporary file, fails, and never deletes it
(`os.remove` at line 105 is only on the success path).  The claim that
deletion is guaranteed even on failure describes the required reimplementation
behaviour, which the source does not satisfy. -/
theorem c8_json_tempfile_not_deleted :
    (jsonIngest [[("nt_start", "1"), ("ref_rCRS", "A"), ("alt", "G")]]).tempCreated = true ∧
    (jsonIngest [[("nt_start", "1"), ("ref_rCRS", "A"), ("alt", "G")]]).tempDeleted = false ∧
    ∃ e, (jsonIngest [[("nt_start", "1"), ("ref_rCRS", "A"), ("alt", "G")]]).rows = .error e :=
  ⟨rfl, rfl, ⟨.tupleNotContextManager, rfl⟩⟩

/-- C3: for every dataset with declared derivations, a derivation expression
failing on some raw row makes loading that dataset fail, and with it any
`load_hts` request containing the dataset: no partial-row tolerance. -/
theorem c3_derivation_failure_fatal (env : Env) (d : String) (cfg : DatasetConfig)
    (raws : List Row) (r : Row) (f : String) (ex : Row → Except Err Value) (e : Err)
    (h1 : lookupConfig d = some cfg) (h2 : rawTable env cfg = .ok raws)
    (h3 : r ∈ raws) (h4 : (f, ex) ∈ cfg.annotations) (h5 : ex r = .error e) :
    (∃ e2, loadDataset env d = .error e2) ∧
    ∀ ds, d ∈ ds → ∃ e3, load_hts env ds = .error e3 := by
  have hf : ((fun (fe : String × (Row → Except Err Value)) =>
      (fe.2 r).map (fun v => (fe.1, v))) (f, ex)) = .error e := by
    show (ex r).map (fun v => (f, v)) = .error e
    rw [h5]
    rfl
  obtain ⟨ea, hmap⟩ :=
    @emapM_error_of_mem (String × (Row → Except Err Value)) (String × Value)
      (fun fe => (fe.2 r).map (fun v => (fe.1, v))) (f, ex) e cfg.annotations h4 hf
  have hann : applyAnns cfg.annotations r = .error ea := by
    unfold applyAnns
    rw [hmap]
  obtain ⟨eb, hrows⟩ := emapM_error_of_mem h3 hann
  have hload : loadDataset env d = .error eb := by
    unfold loadDataset
    simp only [h1, h2, hrows]
  refine ⟨⟨eb, hload⟩, ?_⟩
  intro ds hds
  exact emapM_error_of_mem hds hload

/-- C3 witness: a mitomap row whose `Allele` text defeats the position
pattern makes the locus derivation, the dataset load, and the whole request
fail. -/
theorem c3_witness :
    lookupConfig "mitomap" = some mitomapConfig ∧
    rawTable envMitomapBad mitomapConfig = .ok [mitomapBadRow] ∧
    mitomapBadRow ∈ [mitomapBadRow] ∧
    ("locus", mitomapLocus) ∈ mitomapConfig.annotations ∧
    mitomapLocus mitomapBadRow = .error .noMatch ∧
    ((∃ e2, loadDataset envMitomapBad "mitomap" = .error e2) ∧
      ∀ ds, "mitomap" ∈ ds → ∃ e3, load_hts envMitomapBad ds = .error e3) :=
  ⟨rfl, rfl, List.mem_cons_self _ _, List.mem_cons_self _ _, rfl,
   c3_derivation_failure_fatal envMitomapBad "mitomap" mitomapConfig [mitomapBadRow]
     mitomapBadRow "locus" mitomapLocus .noMatch rfl rfl
     (List.mem_cons_self _ _) (List.mem_cons_self _ _) rfl⟩

/-- C4: every row of a successfully loaded Annotated Table consists of the
key plus exactly one nested field named after the dataset, holding exactly
the retained fields, no more and no less. -/
theorem c4_retained_fields_exact (env : Env) (d : String) (cfg : DatasetConfig)
    (h1 : lookupConfig d = some cfg) (h2 : eisOk (loadDataset env d) = true) :
    ∀ kr ∈ (annTableOf env d).rows,
      ∃ l, kr.2 = [(d, Value.struct l)] ∧ l.map Prod.fst = cfg.select := by
  cases hl : loadDataset env d with
  | error e => rw [hl] at h2; simp [eisOk] at h2
  | ok t =>
    intro kr hkr
    have hsh := loadDataset_shape h1 hl
    have ht : annTableOf env d = t := by
      unfold annTableOf
      rw [hl]
    rw [ht] at hkr
    exact (hsh.2 kr hkr).1

/-- C4 witness: loading dbnsfp from a one-row environment yields rows whose
single nested field holds exactly the `select` list. -/
theorem c4_witness :
    lookupConfig "dbnsfp" = some dbnsfpConfig ∧
    eisOk (loadDataset envDbnsfp1 "dbnsfp") = true ∧
    ∀ kr ∈ (annTableOf envDbnsfp1 "dbnsfp").rows,
      ∃ l, kr.2 = [("dbnsfp", Value.struct l)] ∧ l.map Prod.fst = dbnsfpConfig.select :=
  ⟨rfl, rfl, c4_retained_fields_exact envDbnsfp1 "dbnsfp" dbnsfpConfig rfl rfl⟩

/-- C7: every row of every Annotated Table the Loader produces has a locus
on the mitochondrial contig `chrM` (non-mitochondrial rows are filtered out),
and every key of the Joined Table keeps that invariant. -/
theorem c7_chrM_invariant (env : Env) (ds : List String)
    (h : eisOk (load_hts env ds) = true) :
    (∀ t ∈ loadedTables env ds, ∀ kr ∈ t.rows, ∃ p, kr.1.1 = Scalar.locus "chrM" p) ∧
    (∀ row ∈ (joinedOf env ds).rows, ∃ p, row.1.1 = Scalar.locus "chrM" p) := by
  cases hl : load_hts env ds with
  | error e => rw [hl] at h; simp [eisOk] at h
  | ok ts =>
    have hlt : loadedTables env ds = ts := by
      unfold loadedTables
      rw [hl]
    have hshape := load_hts_tables_shape hl
    constructor
    · intro t ht kr hkr
      rw [hlt] at ht
      exact (hshape t ht kr hkr).2
    · intro row hrow
      have hjo : joinedOf env ds = joinAll ts := by
        unfold joinedOf
        rw [hlt]
      rw [hjo] at hrow
      cases hts : ts with
      | nil =>
        subst hts
        exact absurd hrow (by simp [joinAll])
      | cons t rest =>
        subst hts
        have inv := @joinAll_inv (t :: rest) (by simp)
        have hk : (alookup (joinAll (t :: rest)).rows row.1).isSome = true := by
          rw [alookup_isSome_iff]
          exact List.mem_map.mpr ⟨row, hrow, rfl⟩
        obtain ⟨t2, ht2, hk2⟩ := (inv.2.1 row.1).mp hk
        obtain ⟨kr2, hkr2, hfst⟩ := List.mem_map.mp hk2
        obtain ⟨p, hp⟩ := (hshape t2 ht2 kr2 hkr2).2
        refine ⟨p, ?_⟩
        rw [← hfst]
        exact hp

/-- C7 witness: loading dbnsfp and gnomad from a two-row environment keeps
every table row and every joined row on `chrM`. -/
theorem c7_witness :
    eisOk (load_hts envJoinPair ["dbnsfp", "gnomad"]) = true ∧
    ((∀ t ∈ loadedTables envJoinPair ["dbnsfp", "gnomad"], ∀ kr ∈ t.rows,
        ∃ p, kr.1.1 = Scalar.locus "chrM" p) ∧
     (∀ row ∈ (joinedOf envJoinPair ["dbnsfp", "gnomad"]).rows,
        ∃ p, row.1.1 = Scalar.locus "chrM" p)) :=
  ⟨rfl, c7_chrM_invariant envJoinPair ["dbnsfp", "gnomad"] rfl⟩

/-- The nested value a table contributes at a key is present exactly on the
keys of the table, whenever the table has its nested field on every row. -/
theorem dsValue_isSome_iff_of_shape {t : AnnTable}
    (hsh : ∀ kr ∈ t.rows, (alookup kr.2 t.name).isSome = true) (k : Key) :
    (dsValue t k).isSome = true ↔ k ∈ tableKeys t := by
  unfold dsValue
  unfold alookup
  cases hF : afindRow t.rows k with
  | none =>
    constructor
    · intro hs
      simp at hs
    · intro hmem
      have hs := (afindRow_isSome_iff t.rows k).mpr hmem
      rw [hF] at hs
      simp at hs
  | some r2 =>
    have hr := afindRow_eq_some hF
    constructor
    · intro _
      exact List.mem_map.mpr ⟨r2, hr.1, hr.2⟩
    · intro _
      have hx := hsh r2 hr.1
      unfold alookup at hx
      simpa using hx

/-- C5: the key set of the Joined Table is the union of the loaded tables
key sets, and at every key each dataset column is present exactly when that
dataset contains the key. -/
theorem c5_outer_join_union (env : Env) (ds : List String)
    (h : eisOk (load_hts env ds) = true) (hne : ds ≠ []) :
    (∀ k, k ∈ rowKeys (joinedOf env ds) ↔ ∃ t ∈ loadedTables env ds, k ∈ tableKeys t) ∧
    (∀ i k, (hi : i < (loadedTables env ds).length) →
      ((valueAt (joinedOf env ds) i k).isSome = true
        ↔ k ∈ tableKeys ((loadedTables env ds)[i]))) := by
  cases hl : load_hts env ds with
  | error e => rw [hl] at h; simp [eisOk] at h
  | ok ts =>
    have hlt : loadedTables env ds = ts := by
      unfold loadedTables
      rw [hl]
    have hjo : joinedOf env ds = joinAll ts := by
      unfold joinedOf
      rw [hlt]
    have htsne : ts ≠ [] := by
      have hlen := emapM_ok_length hl
      intro hnil
      subst hnil
      simp at hlen
      exact hne (List.length_eq_zero.mp hlen.symm)
    have inv := joinAll_inv htsne
    have hshape := load_hts_tables_shape hl
    rw [hlt, hjo]
    constructor
    · intro k
      constructor
      · intro hk
        exact (inv.2.1 k).mp ((alookup_isSome_iff _ k).mpr hk)
      · intro hex
        exact (alookup_isSome_iff _ k).mp ((inv.2.1 k).mpr hex)
    · intro i k hi
      have hv := inv.2.2.2 i k hi
      rw [hv]
      exact dsValue_isSome_iff_of_shape
        (fun kr hkr => (hshape ts[i] (List.getElem_mem hi) kr hkr).1) k

/-- C5 witness: dbnsfp holds keys at positions 1 and 2, gnomad at 2 and 3;
the theorem instantiates to their join. -/
theorem c5_witness :
    eisOk (load_hts envJoinPair ["dbnsfp", "gnomad"]) = true ∧
    (["dbnsfp", "gnomad"] : List String) ≠ [] ∧
    ((∀ k, k ∈ rowKeys (joinedOf envJoinPair ["dbnsfp", "gnomad"])
        ↔ ∃ t ∈ loadedTables envJoinPair ["dbnsfp", "gnomad"], k ∈ tableKeys t) ∧
     (∀ i k, (hi : i < (loadedTables envJoinPair ["dbnsfp", "gnomad"]).length) →
       ((valueAt (joinedOf envJoinPair ["dbnsfp", "gnomad"]) i k).isSome = true
         ↔ k ∈ tableKeys ((loadedTables envJoinPair ["dbnsfp", "gnomad"])[i])))) :=
  ⟨rfl, by simp, c5_outer_join_union envJoinPair ["dbnsfp", "gnomad"] rfl (by simp)⟩

/-- C6: for every valid request the metadata attached to the Joined Table is
exactly a run timestamp plus a provenance map whose key set equals the
requested dataset names, fully replacing any previously attached globals
(the result does not depend on them). -/
theorem c6_metadata_exact (env : Env) (ds : List String) (now : String)
    (hvalid : ∀ d ∈ ds, (lookupConfig d).isSome = true) :
    (∀ j, join_hts env ds now = .ok j →
      j.globals = [("date", Value.sc (.str now)),
                   ("datasets", Value.sc (.strDict (includedDatasets ds)))]) ∧
    (∀ d, d ∈ (includedDatasets ds).map Prod.fst ↔ d ∈ ds) := by
  constructor
  · intro j hj
    unfold join_hts at hj
    cases hl : load_hts env ds with
    | error e =>
      rw [hl] at hj
      exact Except.noConfusion hj
    | ok ts =>
      rw [hl] at hj
      cases ts with
      | nil => exact Except.noConfusion hj
      | cons t rest =>
        have hj2 : attachMeta (joinAll (t :: rest)) ds now = j := by
          injection hj
        rw [← hj2]
        rfl
  · intro d
    constructor
    · intro hd
      simp only [includedDatasets, List.map_map, List.mem_map, Function.comp] at hd
      obtain ⟨p, hp, hfst⟩ := hd
      rw [← hfst]
      exact of_decide_eq_true (List.mem_filter.mp hp).2
    · intro hd
      have hs := hvalid d hd
      have hmem : d ∈ CONFIG.map Prod.fst := (alookup_isSome_iff CONFIG d).mp hs
      obtain ⟨p, hp, hfst⟩ := List.mem_map.mp hmem
      have hpf : p ∈ CONFIG.filter (fun q => decide (q.1 ∈ ds)) :=
        List.mem_filter.mpr ⟨hp, decide_eq_true (hfst ▸ hd)⟩
      exact List.mem_map.mpr ⟨(p.1, p.2.path), List.mem_map.mpr ⟨p, hpf, rfl⟩, hfst⟩

/-- C6 witness: a valid single-dataset request. -/
theorem c6_witness :
    (∀ d ∈ (["dbnsfp"] : List String), (lookupConfig d).isSome = true) ∧
    ((∀ j, join_hts envEmpty ["dbnsfp"] "2022-03-01T00:00:00" = .ok j →
      j.globals = [("date", Value.sc (.str "2022-03-01T00:00:00")),
                   ("datasets", Value.sc (.strDict (includedDatasets ["dbnsfp"])))]) ∧
    (∀ d, d ∈ (includedDatasets ["dbnsfp"]).map Prod.fst ↔ d ∈ (["dbnsfp"] : List String))) :=
  ⟨by decide, c6_metadata_exact envEmpty ["dbnsfp"] "2022-03-01T00:00:00" (by decide)⟩

/-- C9: writing to an existing output location fails without the overwrite
flag (leaving the file system unchanged, since the write returns an error
instead of a new state), replaces the artifact when the flag is given, and
the flag defaults to false. -/
theorem c9_overwrite_semantics :
    (∀ (fs : FileSystem) (p : String) (t a : JoinedTable),
      alookup fs p = some a → writeTable fs p t false = .error .outputExists) ∧
    (∀ (fs : FileSystem) (p : String) (t : JoinedTable),
      writeTable fs p t true = .ok (aset fs p t) ∧ alookup (aset fs p t) p = some t) ∧
    forceWriteDefault = false := by
  refine ⟨?_, ?_, rfl⟩
  · intro fs p t a h
    unfold writeTable
    simp [h]
  · intro fs p t
    refine ⟨?_, alookup_aset_self fs p t⟩
    unfold writeTable
    simp

/-- C9 witness: with an artifact already at `out`, the unflagged write
fails with the output-exists error. -/
theorem c9_witness :
    alookup fsExisting "out" = some emptyJoined ∧
    writeTable fsExisting "out" emptyJoined false = .error .outputExists :=
  ⟨rfl, c9_overwrite_semantics.1 fsExisting "out" emptyJoined emptyJoined rfl⟩

/-- C10: for a fixed environment and request, two runs of the Joiner differ
at most in the `date` global: names, rows, and the `datasets` provenance map
coincide (and so does success or failure). -/
theorem c10_deterministic_modulo_timestamp (env : Env) (ds : List String) (n1 n2 : String) :
    (join_hts env ds n1).map stripTimestamp = (join_hts env ds n2).map stripTimestamp := by
  unfold join_hts
  cases hl : load_hts env ds with
  | error e => rfl
  | ok ts =>
    cases ts with
    | nil => rfl
    | cons t rest =>
      show Except.ok (stripTimestamp (attachMeta (joinAll (t :: rest)) ds n1))
          = Except.ok (stripTimestamp (attachMeta (joinAll (t :: rest)) ds n2))
      unfold stripTimestamp attachMeta
      simp [alookup, afindRow]

/-- C1: a request containing any unknown dataset name aborts reporting
exactly the invalid names and their count, leaves the output location
untouched, and reads no source path. -/
theorem c1_abort_on_unknown_dataset (env : Env) (fs : FileSystem) (now : String)
    (args : Args)
    (h : ∃ d ∈ splitComma args.dataset, (lookupConfig d).isNone = true) :
    (run env fs now args).outcome
      = .aborted ((splitComma args.dataset).filter (fun d => (lookupConfig d).isNone))
          ((splitComma args.dataset).filter (fun d => (lookupConfig d).isNone)).length ∧
    (run env fs now args).fs = fs ∧
    (run env fs now args).pathsRead = [] := by
  obtain ⟨d, hd, hnone⟩ := h
  have hmemf : d ∈ (splitComma args.dataset).filter (fun d => (lookupConfig d).isNone) :=
    List.mem_filter.mpr ⟨hd, hnone⟩
  have hpos :
      0 < ((splitComma args.dataset).filter (fun d => (lookupConfig d).isNone)).length :=
    List.length_pos.mpr (List.ne_nil_of_mem hmemf)
  unfold run
  simp only [if_pos hpos]
  exact ⟨trivial, trivial, trivial⟩

/-- C1 witness: requesting `bogus,dbnsfp` aborts reporting `bogus` with
count one, with no reads and no writes. -/
theorem c1_witness :
    (∃ d ∈ splitComma "bogus,dbnsfp", (lookupConfig d).isNone = true) ∧
    ((run envEmpty [] "t" ⟨"bogus,dbnsfp", "out", false⟩).outcome
      = .aborted ((splitComma "bogus,dbnsfp").filter (fun d => (lookupConfig d).isNone))
          ((splitComma "bogus,dbnsfp").filter (fun d => (lookupConfig d).isNone)).length ∧
    (run envEmpty [] "t" ⟨"bogus,dbnsfp", "out", false⟩).fs = [] ∧
    (run envEmpty [] "t" ⟨"bogus,dbnsfp", "out", false⟩).pathsRead = []) :=
  ⟨by decide, c1_abort_on_unknown_dataset envEmpty [] "t" ⟨"bogus,dbnsfp", "out", false⟩
    (by decide)⟩
